import Mathlib

/-!
Verification development for the picvoter backend (src/main.rs).

The Rust source is shallowly embedded:
- the biased selection sampler (`biased_random`, `get_next_pic`) is modelled
  over exact rational arithmetic, with the `as i32` cast modelled as
  truncation toward zero;
- the ranking function (`calc_sort_value`) and the vote confidence formula
  are modelled over the real numbers, with `f32::sqrt` as `Real.sqrt`;
- the vote handler (`vote`) is modelled as a pure transition on a list of
  image records (the `images` table);
- the ingestion loop (`check_imports`, `save_image`) is modelled as a pure
  transition on an abstract store (raw files, renditions, metadata rows,
  inbound files), with the fallible external operations (file read, copy,
  image decode, database insert) recorded as per-file outcome flags.
-/

/-! ## Selection sampler (src/main.rs `biased_random`, `get_next_pic`) -/

/-- Truncation toward zero, the behaviour of the Rust `as i32` cast on a
nonnegative in-range float value (saturation and NaN behaviour of the cast
are irrelevant on the domain used by the program). -/
def ratTrunc (q : ℚ) : ℤ :=
  if 0 ≤ q then ⌊q⌋ else -⌊-q⌋

/-- Embedding of `biased_random` (src/main.rs lines 59-74), with the
uniform draw `unif` passed explicitly and exact rational arithmetic in
place of `f32`. -/
def biased_random (unif : ℚ) (max : ℤ) : ℤ :=
  if max = 0 then 0
  else
    let one_over2_n : ℚ := 1 / 2 ^ (4 : ℕ)
    let one_over_xplus1_n : ℚ := 1 / (unif + 1) ^ (4 : ℕ)
    let random : ℚ := (one_over_xplus1_n - one_over2_n) / (1 - one_over2_n)
    ratTrunc (random * (max : ℚ))

/-- A row of the `images` table as seen by the sampler queries
(`id`, `hash`, and the two score columns). -/
structure DbRow where
  id : String
  hash : String
  sorting : ℚ
  confidence : ℚ

/-- Rows satisfying the `WHERE sorting >= -3` clause of both sampler
queries. -/
def eligible (db : List DbRow) : List DbRow :=
  db.filter fun r => decide (-3 ≤ r.sorting)

/-- Insertion of a row into a list sorted by ascending `confidence`. -/
def insertRow (r : DbRow) : List DbRow → List DbRow
  | [] => [r]
  | q :: rest =>
    if r.confidence ≤ q.confidence then r :: q :: rest else q :: insertRow r rest

/-- The `ORDER BY confidence ASC` clause: a stable insertion sort on the
`confidence` column. -/
def sortByConfidence : List DbRow → List DbRow
  | [] => []
  | r :: rest => insertRow r (sortByConfidence rest)

/-- Embedding of `get_next_pic` (src/main.rs lines 76-107): count the
eligible rows, draw a biased offset, and return the row at that offset of
the confidence-ordered eligible rows (`LIMIT 1 OFFSET skip`), if any. -/
def get_next_pic (unif : ℚ) (db : List DbRow) : Option (String × String) :=
  let count : ℤ := ((eligible db).length : ℤ)
  let skip : ℤ := biased_random unif count
  (((sortByConfidence (eligible db)).drop skip.toNat).head?).map fun r => (r.id, r.hash)

theorem length_insertRow (r : DbRow) (l : List DbRow) :
    (insertRow r l).length = l.length + 1 := by
  induction l with
  | nil => rfl
  | cons q rest ih =>
    by_cases h : r.confidence ≤ q.confidence
    · simp [insertRow, h]
    · simp [insertRow, h, ih]

theorem length_sortByConfidence (l : List DbRow) :
    (sortByConfidence l).length = l.length := by
  induction l with
  | nil => rfl
  | cons r rest ih => simp [sortByConfidence, length_insertRow, ih]

theorem biased_random_at_zero (max : ℤ) (h : 0 < max) :
    biased_random 0 max = max := by
  have hne : max ≠ 0 := h.ne'
  have hmq : (0 : ℚ) ≤ (max : ℚ) := by exact_mod_cast h.le
  simp only [biased_random, hne, if_false]
  norm_num [ratTrunc, hmq, Int.floor_intCast]

theorem biased_random_interior (unif : ℚ) (max : ℤ)
    (h0 : 0 < unif) (h1 : unif < 1) (hm : 0 < max) :
    0 ≤ biased_random unif max ∧ biased_random unif max < max := by
  have hne : max ≠ 0 := hm.ne'
  have hu1 : (1 : ℚ) < unif + 1 := by linarith
  have hu2 : unif + 1 ≤ 2 := by linarith
  have hpow1 : (1 : ℚ) < (unif + 1) ^ (4 : ℕ) := one_lt_pow₀ hu1 (by norm_num)
  have hpowpos : (0 : ℚ) < (unif + 1) ^ (4 : ℕ) := by linarith
  have hpow16 : (unif + 1) ^ (4 : ℕ) ≤ 2 ^ (4 : ℕ) :=
    pow_le_pow_left₀ (by linarith) hu2 4
  have hA1 : 1 / (unif + 1) ^ (4 : ℕ) < 1 := by
    rw [div_lt_one hpowpos]; exact hpow1
  have hA2 : 1 / 2 ^ (4 : ℕ) ≤ 1 / (unif + 1) ^ (4 : ℕ) :=
    one_div_le_one_div_of_le hpowpos hpow16
  set A : ℚ := 1 / (unif + 1) ^ (4 : ℕ) with hA
  have hrand0 : 0 ≤ (A - 1 / 2 ^ (4 : ℕ)) / (1 - 1 / 2 ^ (4 : ℕ)) := by
    apply div_nonneg (by linarith) (by norm_num)
  have hrand1 : (A - 1 / 2 ^ (4 : ℕ)) / (1 - 1 / 2 ^ (4 : ℕ)) < 1 := by
    rw [div_lt_one (by norm_num)]
    linarith
  set random : ℚ := (A - 1 / 2 ^ (4 : ℕ)) / (1 - 1 / 2 ^ (4 : ℕ)) with hrand
  have hmq : (0 : ℚ) < (max : ℚ) := by exact_mod_cast hm
  have hprod0 : 0 ≤ random * (max : ℚ) := mul_nonneg hrand0 hmq.le
  have hprodlt : random * (max : ℚ) < (max : ℚ) := by
    calc random * (max : ℚ) < 1 * (max : ℚ) := by
          exact mul_lt_mul_of_pos_right hrand1 hmq
      _ = (max : ℚ) := one_mul _
  constructor
  · simp only [biased_random, hne, if_false, ratTrunc, hprod0, if_pos]
    exact Int.floor_nonneg.mpr hprod0
  · simp only [biased_random, hne, if_false, ratTrunc, hprod0, if_pos]
    rw [Int.floor_lt]
    exact_mod_cast hprodlt

theorem get_next_pic_empty (unif : ℚ) (db : List DbRow)
    (h : eligible db = []) : get_next_pic unif db = none := by
  simp [get_next_pic, h, sortByConfidence, biased_random]

theorem get_next_pic_at_zero (db : List DbRow) :
    get_next_pic 0 db = none := by
  rcases Nat.eq_zero_or_pos (eligible db).length with hz | hpos
  · rw [List.length_eq_zero] at hz
    exact get_next_pic_empty 0 db hz
  · have hcount : (0 : ℤ) < ((eligible db).length : ℤ) := by exact_mod_cast hpos
    have hskip : biased_random 0 ((eligible db).length : ℤ) = ((eligible db).length : ℤ) :=
      biased_random_at_zero _ hcount
    have htoNat : (((eligible db).length : ℤ)).toNat = (eligible db).length := Int.toNat_natCast _
    simp only [get_next_pic, hskip, htoNat]
    rw [List.drop_eq_nil_of_le (by rw [length_sortByConfidence])]
    rfl

/-- Claim C2, counterexample: with pool size `N = 1` and uniform draw
`unif = 0`, the computed offset is `1 = N`, not `0`, and it does not lie in
the half-open range `[0, N)`. -/
theorem sampler_unif_zero_cex :
    biased_random 0 1 = 1 ∧ ¬ biased_random 0 1 < 1 ∧ biased_random 0 1 ≠ 0 := by
  have h : biased_random 0 1 = 1 := biased_random_at_zero 1 one_pos
  exact ⟨h, by omega, by omega⟩

/-- Claim C2 (amended): with pool size `N = 0` the sampler yields no record;
for every draw `unif` strictly between `0` and `1` the offset lies in
`[0, N)`; but at `unif = 0` the offset equals `N` (so `get_next_pic` then
yields no record for every database, the offset falling one past the end of
the eligible pool). -/
theorem sampler_range_amended :
    (∀ unif : ℚ, biased_random unif 0 = 0) ∧
    (∀ (unif : ℚ) (db : List DbRow), eligible db = [] → get_next_pic unif db = none) ∧
    (∀ (unif : ℚ) (max : ℤ), 0 < unif → unif < 1 → 0 < max →
      0 ≤ biased_random unif max ∧ biased_random unif max < max) ∧
    (∀ max : ℤ, 0 < max → biased_random 0 max = max) ∧
    (∀ db : List DbRow, get_next_pic 0 db = none) := by
  refine ⟨fun unif => by simp [biased_random], ?_, ?_, ?_, ?_⟩
  · exact fun unif db h => get_next_pic_empty unif db h
  · exact fun unif max h0 h1 hm => biased_random_interior unif max h0 h1 hm
  · exact fun max h => biased_random_at_zero max h
  · exact fun db => get_next_pic_at_zero db

/-- Witness for the amended Claim C2 theorem at concrete inputs. -/
theorem sampler_range_amended_witness :
    ((0 : ℚ) < 1/2 ∧ (1/2 : ℚ) < 1 ∧ (0 : ℤ) < 10 ∧
      0 ≤ biased_random (1/2) 10 ∧ biased_random (1/2) 10 < 10) ∧
    ((0 : ℤ) < 7 ∧ biased_random 0 7 = 7) ∧
    (eligible [] = [] ∧ get_next_pic (1/3) [] = none) := by
  refine ⟨⟨by norm_num, by norm_num, by norm_num, ?_⟩, ⟨by norm_num, ?_⟩, ⟨rfl, ?_⟩⟩
  · exact sampler_range_amended.2.2.1 (1/2) 10 (by norm_num) (by norm_num) (by norm_num)
  · exact sampler_range_amended.2.2.2.1 7 (by norm_num)
  · exact sampler_range_amended.2.1 (1/3) [] rfl

/-! ## Ranking engine (src/main.rs `calc_sort_value`, `vote` lines 154-155) -/

/-- The fixed confidence parameter `z = 1.64485` of `calc_sort_value`. -/
def zval : ℝ := 1.64485

/-- Embedding of `calc_sort_value` (src/main.rs lines 179-194), with `f32`
arithmetic modelled over the reals and `f32::sqrt` as `Real.sqrt`. -/
noncomputable def calc_sort_value (ups downs : ℤ) : ℝ :=
  if ups = 0 then
    if downs = 0 then 0.5 else ((downs * -1 : ℤ) : ℝ)
  else
    let n : ℝ := ((ups + downs : ℤ) : ℝ)
    let phat : ℝ := (ups : ℝ) / n
    (phat + zval * zval / (2 * n)
        - zval * Real.sqrt ((phat * (1 - phat) + zval * zval / (4 * n)) / n))
      / (1 + zval * zval / n)

/-- The confidence value computed by the vote handler
(src/main.rs line 155): `((0.5 - new_sorting) * ((upvotes + downvotes) as
f32 / 10.0)).abs()`, as a function of the new counts. -/
noncomputable def voteConfidence (ups downs : ℤ) : ℝ :=
  |(0.5 - calc_sort_value ups downs) * (((ups + downs : ℤ) : ℝ) / 10)|

/-- The ranking pair of the spec: sort key and evidence-strength metric for
a pair of vote counts. -/
noncomputable def rank (ups downs : ℤ) : ℝ × ℝ :=
  (calc_sort_value ups downs, voteConfidence ups downs)

/-- Modelled from the spec wording of section 4.5: the Wilson lower
confidence bound `(phat + z²/(2n) − z·sqrt((phat·(1−phat) + z²/(4n))/n)) /
(1 + z²/n)` at `z = 1.64485`. -/
noncomputable def wilsonLowerBoundSpec (upvotes downvotes : ℤ) : ℝ :=
  let n : ℝ := (upvotes : ℝ) + (downvotes : ℝ)
  let phat : ℝ := (upvotes : ℝ) / n
  (phat + zval ^ 2 / (2 * n)
      - zval * Real.sqrt ((phat * (1 - phat) + zval ^ 2 / (4 * n)) / n))
    / (1 + zval ^ 2 / n)

/-- Modelled from the spec wording: `confidence = |0.5 − sorting| · (n / 10)`. -/
noncomputable def confidenceSpec (upvotes downvotes : ℤ) : ℝ :=
  |0.5 - calc_sort_value upvotes downvotes| * (((upvotes : ℝ) + (downvotes : ℝ)) / 10)

theorem zval_pos : (0 : ℝ) < zval := by norm_num [zval]

/-- Claim C4: for positive upvotes the sorting value is exactly the Wilson
lower confidence bound of the spec at `z = 1.64485`, and the stored
confidence equals `|0.5 − sorting| · (n / 10)`. -/
theorem rank_matches_wilson_spec (ups downs : ℤ) (hu : 0 < ups) (hd : 0 ≤ downs) :
    calc_sort_value ups downs = wilsonLowerBoundSpec ups downs ∧
    voteConfidence ups downs = confidenceSpec ups downs := by
  constructor
  · have hne : ups ≠ 0 := hu.ne'
    simp only [calc_sort_value, wilsonLowerBoundSpec, hne, if_false]
    have hcast : ((ups + downs : ℤ) : ℝ) = (ups : ℝ) + (downs : ℝ) := by push_cast; ring
    rw [hcast]
    ring_nf
  · have hn : (0 : ℝ) ≤ (((ups + downs : ℤ) : ℝ) / 10) := by
      have : (0 : ℤ) ≤ ups + downs := by omega
      have h10 : (0 : ℝ) ≤ ((ups + downs : ℤ) : ℝ) := by exact_mod_cast this
      linarith
    simp only [voteConfidence, confidenceSpec, abs_mul]
    rw [abs_of_nonneg hn]
    have hcast : ((ups + downs : ℤ) : ℝ) = (ups : ℝ) + (downs : ℝ) := by push_cast; ring
    rw [hcast]

/-- Witness for the Claim C4 theorem at `(upvotes, downvotes) = (1, 0)`. -/
theorem rank_matches_wilson_spec_witness :
    (0 : ℤ) < 1 ∧ (0 : ℤ) ≤ 0 ∧
    calc_sort_value 1 0 = wilsonLowerBoundSpec 1 0 ∧
    voteConfidence 1 0 = confidenceSpec 1 0 :=
  ⟨by norm_num, le_refl 0,
    (rank_matches_wilson_spec 1 0 (by norm_num) (le_refl 0)).1,
    (rank_matches_wilson_spec 1 0 (by norm_num) (le_refl 0)).2⟩

/-- Claim C8: the degenerate ranking cases. `rank(0,0)` has sorting `0.5`
and confidence `0`, and for every `d > 0`, `rank(0,d)` has sorting `−d`. -/
theorem rank_degenerate_cases :
    calc_sort_value 0 0 = 0.5 ∧ voteConfidence 0 0 = 0 ∧
    ∀ d : ℤ, 0 < d → calc_sort_value 0 d = -(d : ℝ) := by
  refine ⟨by norm_num [calc_sort_value], ?_, ?_⟩
  · norm_num [voteConfidence, calc_sort_value]
  · intro d hd
    have hne : d ≠ 0 := hd.ne'
    simp only [calc_sort_value, if_pos rfl, hne, if_false]
    push_cast
    ring

/-- Witness for the Claim C8 theorem at `d = 2`. -/
theorem rank_degenerate_cases_witness :
    (0 : ℤ) < 2 ∧ calc_sort_value 0 2 = -((2 : ℤ) : ℝ) :=
  ⟨by norm_num, rank_degenerate_cases.2.2 2 (by norm_num)⟩

/-! ## Wilson bound analysis for the monotonicity claims -/

/-- The Wilson lower bound in a scaled form: for `n = u + d > 0` the value
of `calc_sort_value` on positive upvotes equals
`(u + z²/2 − z·sqrt(u·d/n + z²/4)) / (n + z²)`. -/
noncomputable def wscaled (u d : ℝ) : ℝ :=
  (u + zval ^ 2 / 2 - zval * Real.sqrt (u * d / (u + d) + zval ^ 2 / 4))
    / (u + d + zval ^ 2)

theorem wscaled_arg_nonneg (u d : ℝ) (hu : 1 ≤ u) (hd : 0 ≤ d) :
    0 ≤ u * d / (u + d) + zval ^ 2 / 4 := by
  have hn : (0 : ℝ) < u + d := by linarith
  have h1 : 0 ≤ u * d / (u + d) := div_nonneg (mul_nonneg (by linarith) hd) hn.le
  have h2 : 0 ≤ zval ^ 2 / 4 := by positivity
  linarith

theorem wscaled_sqrt_sq (u d : ℝ) (hu : 1 ≤ u) (hd : 0 ≤ d) :
    Real.sqrt (u * d / (u + d) + zval ^ 2 / 4) ^ 2 = u * d / (u + d) + zval ^ 2 / 4 :=
  Real.sq_sqrt (wscaled_arg_nonneg u d hu hd)

theorem wscaled_sqrt_lb (u d : ℝ) (hu : 1 ≤ u) (hd : 0 ≤ d) :
    zval / 2 ≤ Real.sqrt (u * d / (u + d) + zval ^ 2 / 4) := by
  have hn : (0 : ℝ) < u + d := by linarith
  have h1 : 0 ≤ u * d / (u + d) := div_nonneg (mul_nonneg (by linarith) hd) hn.le
  have h2 : zval ^ 2 / 4 ≤ u * d / (u + d) + zval ^ 2 / 4 := by linarith
  have h3 : Real.sqrt (zval ^ 2 / 4) = zval / 2 := by
    rw [show zval ^ 2 / 4 = (zval / 2) ^ 2 by ring]
    exact Real.sqrt_sq (by linarith [zval_pos])
  calc zval / 2 = Real.sqrt (zval ^ 2 / 4) := h3.symm
    _ ≤ _ := Real.sqrt_le_sqrt h2

/-- The numerator of the scaled Wilson bound is nonnegative. -/
theorem wscaled_num_nonneg (u d : ℝ) (hu : 1 ≤ u) (hd : 0 ≤ d) :
    0 ≤ u + zval ^ 2 / 2 - zval * Real.sqrt (u * d / (u + d) + zval ^ 2 / 4) := by
  have hn : (0 : ℝ) < u + d := by linarith
  set S : ℝ := Real.sqrt (u * d / (u + d) + zval ^ 2 / 4) with hS
  have hS0 : 0 ≤ S := Real.sqrt_nonneg _
  have hSsq : S ^ 2 = u * d / (u + d) + zval ^ 2 / 4 := wscaled_sqrt_sq u d hu hd
  have hfrac : u * d / (u + d) ≤ u := by
    rw [div_le_iff₀ hn]
    nlinarith
  have hsq : (zval * S) ^ 2 ≤ (u + zval ^ 2 / 2) ^ 2 := by
    have : (zval * S) ^ 2 = zval ^ 2 * (u * d / (u + d) + zval ^ 2 / 4) := by
      rw [mul_pow, hSsq]
    nlinarith [sq_nonneg zval, zval_pos]
  have hzS : 0 ≤ zval * S := mul_nonneg zval_pos.le hS0
  nlinarith [hsq, hzS]

theorem wscaled_nonneg (u d : ℝ) (hu : 1 ≤ u) (hd : 0 ≤ d) :
    0 ≤ wscaled u d := by
  have hden : (0 : ℝ) < u + d + zval ^ 2 := by nlinarith [zval_pos]
  exact div_nonneg (wscaled_num_nonneg u d hu hd) hden.le

/-- The scaled Wilson bound never exceeds the raw proportion `u/(u+d)`. -/
theorem wscaled_le_phat (u d : ℝ) (hu : 1 ≤ u) (hd : 0 ≤ d) :
    wscaled u d ≤ u / (u + d) := by
  have hn : (0 : ℝ) < u + d := by linarith
  have hden : (0 : ℝ) < u + d + zval ^ 2 := by nlinarith [zval_pos]
  set S : ℝ := Real.sqrt (u * d / (u + d) + zval ^ 2 / 4) with hS
  have hS0 : 0 ≤ S := Real.sqrt_nonneg _
  have hSsq : S ^ 2 = u * d / (u + d) + zval ^ 2 / 4 := wscaled_sqrt_sq u d hu hd
  rw [wscaled, div_le_div_iff₀ hden hn]
  -- goal: (u + z²/2 − z·S) * (u + d) ≤ u * (u + d + z²)
  -- equivalent to z²((u+d)/2 − u) ≤ (u+d)·z·S
  rcases le_or_lt ((u + d) / 2) u with hcase | hcase
  · nlinarith [mul_nonneg (mul_nonneg zval_pos.le hS0) hn.le, zval_pos, sq_nonneg zval]
  · -- here (u+d)/2 − u > 0; compare squares
    have hkey : (zval ^ 2 * ((u + d) / 2 - u)) ^ 2 ≤ ((u + d) * (zval * S)) ^ 2 := by
      have hexp : ((u + d) * (zval * S)) ^ 2
          = zval ^ 2 * ((u + d) * (u * d) + zval ^ 2 * (u + d) ^ 2 / 4) := by
        rw [mul_pow, mul_pow, hSsq]
        field_simp
        ring
      rw [hexp]
      have hu0 : (0 : ℝ) ≤ u := by linarith
      have hA : 0 ≤ zval ^ 2 * zval ^ 2 * (u * d) :=
        mul_nonneg (mul_nonneg (sq_nonneg zval) (sq_nonneg zval)) (mul_nonneg hu0 hd)
      have hB : 0 ≤ zval ^ 2 * ((u + d) * (u * d)) :=
        mul_nonneg (sq_nonneg zval) (mul_nonneg hn.le (mul_nonneg hu0 hd))
      nlinarith [hA, hB]
    have hlhs : 0 ≤ zval ^ 2 * ((u + d) / 2 - u) := by nlinarith [sq_nonneg zval]
    have hrhs : 0 ≤ (u + d) * (zval * S) :=
      mul_nonneg hn.le (mul_nonneg zval_pos.le hS0)
    have : zval ^ 2 * ((u + d) / 2 - u) ≤ (u + d) * (zval * S) := by
      nlinarith [hkey, hlhs, hrhs]
    nlinarith [this]

theorem one_lt_zval_sq : (1 : ℝ) < zval ^ 2 := by norm_num [zval]

/-- The scaled Wilson bound is the smaller root of the quadratic
`n(n+z²)·p² − n(2u+z²)·p + u² = 0` (with `n = u + d`). -/
theorem wscaled_quad (u d : ℝ) (hu : 1 ≤ u) (hd : 0 ≤ d) :
    (u + d) * (u + d + zval ^ 2) * (wscaled u d) ^ 2
      - (u + d) * (2 * u + zval ^ 2) * (wscaled u d) + u ^ 2 = 0 := by
  have hn : (0 : ℝ) < u + d := by linarith
  have hA : (0 : ℝ) < u + d + zval ^ 2 := by nlinarith [zval_pos]
  set S : ℝ := Real.sqrt (u * d / (u + d) + zval ^ 2 / 4) with hSdef
  have hSn : S ^ 2 * (u + d) = u * d + zval ^ 2 / 4 * (u + d) := by
    rw [hSdef, wscaled_sqrt_sq u d hu hd]
    field_simp
    ring
  have hw : wscaled u d * (u + d + zval ^ 2) = u + zval ^ 2 / 2 - zval * S := by
    rw [hSdef, wscaled]
    exact div_mul_cancel₀ _ hA.ne'
  set w : ℝ := wscaled u d with hwdef
  have key : (u + d + zval ^ 2)
      * ((u + d) * (u + d + zval ^ 2) * w ^ 2 - (u + d) * (2 * u + zval ^ 2) * w + u ^ 2)
      = 0 := by
    linear_combination ((u + d) * (w * (u + d + zval ^ 2))
        + (u + d) * (u + zval ^ 2 / 2 - zval * S)
        - (u + d) * (2 * u + zval ^ 2)) * hw + zval ^ 2 * hSn
  rcases mul_eq_zero.mp key with h | h
  · exact absurd h hA.ne'
  · exact h

/-- Root comparison for an upward parabola, in cleared form: a point that is
on or outside the parabola and strictly left of the larger root is at or
left of the smaller root. -/
theorem quad_root_le (A B C D x : ℝ) (hA : 0 < A) (_hD : 0 ≤ D)
    (hDsq : D ^ 2 = B ^ 2 - 4 * A * C) (hQ : 0 ≤ A * x ^ 2 - B * x + C)
    (hx : 2 * A * x < B + D) : 2 * A * x ≤ B - D := by
  by_contra hcon
  push_neg at hcon
  have hprod : (2 * A * x - B - D) * (2 * A * x - B + D) < 0 :=
    mul_neg_of_neg_of_pos (by linarith) (by linarith)
  nlinarith [mul_nonneg hA.le hQ, hprod]

/-- On positive upvotes, `calc_sort_value` equals the scaled Wilson bound. -/
theorem calc_sort_value_eq_wscaled (u d : ℤ) (hu : 0 < u) (hd : 0 ≤ d) :
    calc_sort_value u d = wscaled (u : ℝ) (d : ℝ) := by
  have hne : u ≠ 0 := hu.ne'
  have hu1 : (1 : ℝ) ≤ (u : ℝ) := by exact_mod_cast hu
  have hd0 : (0 : ℝ) ≤ (d : ℝ) := by exact_mod_cast hd
  have hn : (0 : ℝ) < (u : ℝ) + (d : ℝ) := by linarith
  simp only [calc_sort_value, hne, if_false]
  have hcast : ((u + d : ℤ) : ℝ) = (u : ℝ) + (d : ℝ) := by push_cast; ring
  rw [hcast, wscaled]
  have hargeq : ((u : ℝ) / ((u : ℝ) + (d : ℝ)) * (1 - (u : ℝ) / ((u : ℝ) + (d : ℝ)))
        + zval * zval / (4 * ((u : ℝ) + (d : ℝ)))) / ((u : ℝ) + (d : ℝ))
      = ((u : ℝ) * (d : ℝ) / ((u : ℝ) + (d : ℝ)) + zval ^ 2 / 4)
          / ((u : ℝ) + (d : ℝ)) ^ 2 := by
    field_simp
    ring
  rw [hargeq, Real.sqrt_div (wscaled_arg_nonneg (u : ℝ) (d : ℝ) hu1 hd0),
    Real.sqrt_sq hn.le]
  set SX : ℝ := Real.sqrt ((u : ℝ) * (d : ℝ) / ((u : ℝ) + (d : ℝ)) + zval ^ 2 / 4) with hSX
  have hA : (0 : ℝ) < (u : ℝ) + (d : ℝ) + zval ^ 2 := by nlinarith [zval_pos]
  have hden : (0 : ℝ) < 1 + zval * zval / ((u : ℝ) + (d : ℝ)) := by
    have : 0 ≤ zval * zval / ((u : ℝ) + (d : ℝ)) :=
      div_nonneg (mul_self_nonneg zval) hn.le
    linarith
  rw [div_eq_div_iff hden.ne' hA.ne']
  field_simp
  ring

/-- The scaled Wilson bound, multiplied by its denominator, is at most `u`
(the numerator is at most `u`). -/
theorem wscaled_mul_denom_le (u d : ℝ) (hu : 1 ≤ u) (hd : 0 ≤ d) :
    wscaled u d * (u + d + zval ^ 2) ≤ u := by
  have hA : (0 : ℝ) < u + d + zval ^ 2 := by nlinarith [zval_pos]
  have hxA : wscaled u d * (u + d + zval ^ 2)
      = u + zval ^ 2 / 2 - zval * Real.sqrt (u * d / (u + d) + zval ^ 2 / 4) := by
    rw [wscaled]
    exact div_mul_cancel₀ _ hA.ne'
  rw [hxA]
  nlinarith [mul_le_mul_of_nonneg_left (wscaled_sqrt_lb u d hu hd) zval_pos.le]

/-- Cleared form of `wscaled_le_phat`. -/
theorem wscaled_mul_le (u d : ℝ) (hu : 1 ≤ u) (hd : 0 ≤ d) :
    wscaled u d * (u + d) ≤ u := by
  have hn : (0 : ℝ) < u + d := by linarith
  have h := wscaled_le_phat u d hu hd
  rw [le_div_iff₀ hn] at h
  linarith [h]

set_option maxHeartbeats 1000000 in
/-- Core of the upvote monotonicity argument, stated over opaque values
`x` (the current bound) and `S` (the square root at the shifted counts). -/
theorem mono_up_core (u d x S : ℝ) (hu : 1 ≤ u) (hd : 0 ≤ d)
    (hx0 : 0 ≤ x) (hxn : x * (u + d) ≤ u) (hnum : x * (u + d + zval ^ 2) ≤ u)
    (hQold : (u + d) * (u + d + zval ^ 2) * x ^ 2
      - (u + d) * (2 * u + zval ^ 2) * x + u ^ 2 = 0)
    (hS0 : 0 ≤ S) (hSlb : zval / 2 ≤ S)
    (hSn : S ^ 2 * (u + 1 + d) = (u + 1) * d + zval ^ 2 / 4 * (u + 1 + d)) :
    x * (u + 1 + d + zval ^ 2) ≤ u + 1 + zval ^ 2 / 2 - zval * S := by
  have hn : (0 : ℝ) < u + d := by linarith
  have hn' : (0 : ℝ) < u + d + 1 := by linarith
  have hA : (0 : ℝ) < u + d + zval ^ 2 := by nlinarith [zval_pos]
  have hA' : (0 : ℝ) < u + d + 1 + zval ^ 2 := by nlinarith [zval_pos]
  have hx1 : x ≤ 1 := by nlinarith [hxn, hn]
  -- strict bound: x * (n + 1) < u + 1
  have hxlt : x * (u + d + 1) < u + 1 := by
    have h1 : x * (u + d + 1) * (u + d + zval ^ 2) ≤ u * (u + d + 1) := by
      nlinarith [mul_le_mul_of_nonneg_right hnum hn'.le]
    have h2 : u * (u + d + 1) < (u + 1) * (u + d + zval ^ 2) := by
      nlinarith [one_lt_zval_sq, hu, hd]
    nlinarith [h1, h2, hA]
  -- the point x lies on or outside the shifted quadratic
  have hF1 : 0 ≤ (u - (u + d) * x) * (2 * (u + d) - u - (u + d) * x) := by
    apply mul_nonneg (by linarith [hxn]) (by linarith [hxn, hd])
  have hdelta : 0 ≤ (2 * (u + d) + 1 + zval ^ 2) * x ^ 2
      - (2 * u + zval ^ 2 + 2 * (u + d) + 2) * x + (2 * u + 1) := by
    have hid : (u + d) ^ 2 * ((2 * (u + d) + 1 + zval ^ 2) * x ^ 2
          - (2 * u + zval ^ 2 + 2 * (u + d) + 2) * x + (2 * u + 1))
        = (u + d) * ((u + d) * (u + d + zval ^ 2) * x ^ 2
            - (u + d) * (2 * u + zval ^ 2) * x + u ^ 2)
          + ((u + d) + 1) * ((u - (u + d) * x) * (2 * (u + d) - u - (u + d) * x))
          + d ^ 2 := by ring
    rw [hQold] at hid
    have h3 : 0 ≤ (u + d) ^ 2 * ((2 * (u + d) + 1 + zval ^ 2) * x ^ 2
        - (2 * u + zval ^ 2 + 2 * (u + d) + 2) * x + (2 * u + 1)) := by
      rw [hid]
      have h4 : 0 ≤ ((u + d) + 1) * ((u - (u + d) * x) * (2 * (u + d) - u - (u + d) * x)) :=
        mul_nonneg (by linarith) hF1
      nlinarith [sq_nonneg d, h4]
    have h5 : (u + d) ^ 2 * 0 ≤ (u + d) ^ 2 * ((2 * (u + d) + 1 + zval ^ 2) * x ^ 2
        - (2 * u + zval ^ 2 + 2 * (u + d) + 2) * x + (2 * u + 1)) := by
      simpa using h3
    exact le_of_mul_le_mul_left h5 (pow_pos hn 2)
  have hQnew : 0 ≤ ((u + d + 1) * (u + d + 1 + zval ^ 2)) * x ^ 2
      - ((u + d + 1) * (2 * (u + 1) + zval ^ 2)) * x + (u + 1) ^ 2 := by
    have hEid : ((u + d + 1) * (u + d + 1 + zval ^ 2)) * x ^ 2
        - ((u + d + 1) * (2 * (u + 1) + zval ^ 2)) * x + (u + 1) ^ 2
        = ((u + d) * (u + d + zval ^ 2) * x ^ 2
            - (u + d) * (2 * u + zval ^ 2) * x + u ^ 2)
          + ((2 * (u + d) + 1 + zval ^ 2) * x ^ 2
            - (2 * u + zval ^ 2 + 2 * (u + d) + 2) * x + (2 * u + 1)) := by ring
    rw [hEid, hQold]
    linarith [hdelta]
  -- discriminant identity for the shifted quadratic
  have hDsq : ((u + d + 1) * (2 * zval * S)) ^ 2
      = ((u + d + 1) * (2 * (u + 1) + zval ^ 2)) ^ 2
        - 4 * ((u + d + 1) * (u + d + 1 + zval ^ 2)) * (u + 1) ^ 2 := by
    linear_combination (4 * zval ^ 2 * (u + d + 1)) * hSn
  have hD1 : 0 ≤ (u + d + 1) * (2 * zval * S) := by
    apply mul_nonneg hn'.le
    nlinarith [zval_pos, hS0]
  -- x is strictly left of the larger root of the shifted quadratic
  have hxQ : 2 * ((u + d + 1) * (u + d + 1 + zval ^ 2)) * x
      < (u + d + 1) * (2 * (u + 1) + zval ^ 2) + (u + d + 1) * (2 * zval * S) := by
    have hzS : zval ^ 2 / 2 ≤ zval * S := by
      nlinarith [mul_le_mul_of_nonneg_left hSlb zval_pos.le]
    have hstep1 : 2 * ((u + d + 1) * (u + d + 1 + zval ^ 2)) * x
        < 2 * (u + d + 1 + zval ^ 2) * (u + 1) := by
      nlinarith [mul_lt_mul_of_pos_left hxlt
        (by linarith : (0 : ℝ) < 2 * (u + d + 1 + zval ^ 2))]
    have hstep2 : 2 * (u + d + 1 + zval ^ 2) * (u + 1)
        ≤ (u + d + 1) * (2 * (u + 1) + zval ^ 2) + (u + d + 1) * (2 * zval * S) := by
      nlinarith [mul_le_mul_of_nonneg_left hzS hn'.le,
        mul_nonneg hd (sq_nonneg zval)]
    linarith [hstep1, hstep2]
  have hroot := quad_root_le ((u + d + 1) * (u + d + 1 + zval ^ 2))
    ((u + d + 1) * (2 * (u + 1) + zval ^ 2)) ((u + 1) ^ 2)
    ((u + d + 1) * (2 * zval * S)) x
    (by nlinarith [hn', hA']) hD1 hDsq hQnew hxQ
  -- divide the cleared conclusion by 2(n+1)
  have key : (2 * (u + d + 1)) * (x * (u + 1 + d + zval ^ 2))
      ≤ (2 * (u + d + 1)) * (u + 1 + zval ^ 2 / 2 - zval * S) := by
    nlinarith [hroot]
  exact le_of_mul_le_mul_left key (by linarith)

/-- Adding one upvote never decreases the scaled Wilson bound. -/
theorem wscaled_mono_up (u d : ℝ) (hu : 1 ≤ u) (hd : 0 ≤ d) :
    wscaled u d ≤ wscaled (u + 1) d := by
  have hu' : 1 ≤ u + 1 := by linarith
  have hA'' : (0 : ℝ) < u + 1 + d + zval ^ 2 := by nlinarith [zval_pos]
  have hS'n : (Real.sqrt ((u + 1) * d / (u + 1 + d) + zval ^ 2 / 4)) ^ 2 * (u + 1 + d)
      = (u + 1) * d + zval ^ 2 / 4 * (u + 1 + d) := by
    rw [wscaled_sqrt_sq (u + 1) d hu' hd]
    field_simp
    ring
  have hcore := mono_up_core u d (wscaled u d)
    (Real.sqrt ((u + 1) * d / (u + 1 + d) + zval ^ 2 / 4))
    hu hd (wscaled_nonneg u d hu hd) (wscaled_mul_le u d hu hd)
    (wscaled_mul_denom_le u d hu hd) (wscaled_quad u d hu hd)
    (Real.sqrt_nonneg _) (wscaled_sqrt_lb (u + 1) d hu' hd) hS'n
  conv_rhs => rw [wscaled]
  rw [le_div_iff₀ hA'']
  exact hcore

set_option maxHeartbeats 1000000 in
/-- Core of the downvote monotonicity argument: `x` is the bound at the
incremented downvote count, `S` the square root at the base counts. -/
theorem mono_down_core (u d x S : ℝ) (hu : 1 ≤ u) (hd : 0 ≤ d)
    (hx0 : 0 ≤ x) (hxm : x * (u + d + 1) ≤ u)
    (hQnew : (u + d + 1) * (u + d + 1 + zval ^ 2) * x ^ 2
      - (u + d + 1) * (2 * u + zval ^ 2) * x + u ^ 2 = 0)
    (hS0 : 0 ≤ S) (hSlb : zval / 2 ≤ S)
    (hSn : S ^ 2 * (u + d) = u * d + zval ^ 2 / 4 * (u + d)) :
    x * (u + d + zval ^ 2) ≤ u + zval ^ 2 / 2 - zval * S := by
  have hn : (0 : ℝ) < u + d := by linarith
  have hn' : (0 : ℝ) < u + d + 1 := by linarith
  have hA : (0 : ℝ) < u + d + zval ^ 2 := by nlinarith [zval_pos]
  have hx1 : x < 1 := by nlinarith [hxm, hd, hn']
  -- x lies on or outside the base quadratic
  have hQ : 0 ≤ (u + d) * (u + d + zval ^ 2) * x ^ 2
      - (u + d) * (2 * u + zval ^ 2) * x + u ^ 2 := by
    have hEid : (u + d) * (u + d + zval ^ 2) * x ^ 2
        - (u + d) * (2 * u + zval ^ 2) * x + u ^ 2
        = ((u + d + 1) * (u + d + 1 + zval ^ 2) * x ^ 2
            - (u + d + 1) * (2 * u + zval ^ 2) * x + u ^ 2)
          + (-(2 * (u + d) + 1 + zval ^ 2) * x ^ 2 + (2 * u + zval ^ 2) * x) := by ring
    rw [hEid, hQnew]
    have hfac : 0 ≤ x * ((2 * u + zval ^ 2) - (2 * (u + d) + 1 + zval ^ 2) * x) := by
      apply mul_nonneg hx0
      nlinarith [hxm, hx1.le, hx0, sq_nonneg zval]
    nlinarith [hfac]
  -- discriminant identity for the base quadratic
  have hDsq : ((u + d) * (2 * zval * S)) ^ 2
      = ((u + d) * (2 * u + zval ^ 2)) ^ 2
        - 4 * ((u + d) * (u + d + zval ^ 2)) * u ^ 2 := by
    linear_combination (4 * zval ^ 2 * (u + d)) * hSn
  have hD1 : 0 ≤ (u + d) * (2 * zval * S) :=
    mul_nonneg hn.le (by nlinarith [zval_pos, hS0])
  -- x is strictly left of the larger root of the base quadratic
  have hxQ : 2 * ((u + d) * (u + d + zval ^ 2)) * x
      < (u + d) * (2 * u + zval ^ 2) + (u + d) * (2 * zval * S) := by
    have hzS : zval ^ 2 / 2 ≤ zval * S := by
      nlinarith [mul_le_mul_of_nonneg_left hSlb zval_pos.le]
    have h6 : (u + d) * (zval ^ 2 / 2) ≤ (u + d) * (zval * S) :=
      mul_le_mul_of_nonneg_left hzS hn.le
    have h7 : 2 * (u + d) * (x * (u + d + 1)) ≤ 2 * (u + d) * u :=
      mul_le_mul_of_nonneg_left hxm (by linarith)
    have h8 : (2 * ((u + d) * zval ^ 2)) * x < (2 * ((u + d) * zval ^ 2)) * 1 :=
      mul_lt_mul_of_pos_left hx1 (by nlinarith [zval_pos, hn])
    nlinarith [h6, h7, h8, hn, hx0]
  have hroot := quad_root_le ((u + d) * (u + d + zval ^ 2))
    ((u + d) * (2 * u + zval ^ 2)) (u ^ 2) ((u + d) * (2 * zval * S)) x
    (by nlinarith [hn, hA]) hD1 hDsq hQ hxQ
  have key : (2 * (u + d)) * (x * (u + d + zval ^ 2))
      ≤ (2 * (u + d)) * (u + zval ^ 2 / 2 - zval * S) := by
    nlinarith [hroot]
  exact le_of_mul_le_mul_left key (by linarith)

/-- Adding one downvote never increases the scaled Wilson bound. -/
theorem wscaled_mono_down (u d : ℝ) (hu : 1 ≤ u) (hd : 0 ≤ d) :
    wscaled u (d + 1) ≤ wscaled u d := by
  have hd1 : (0 : ℝ) ≤ d + 1 := by linarith
  have hA : (0 : ℝ) < u + d + zval ^ 2 := by nlinarith [zval_pos]
  have hxm : wscaled u (d + 1) * (u + d + 1) ≤ u := by
    nlinarith [wscaled_mul_le u (d + 1) hu hd1]
  have hQnew : (u + d + 1) * (u + d + 1 + zval ^ 2) * (wscaled u (d + 1)) ^ 2
      - (u + d + 1) * (2 * u + zval ^ 2) * (wscaled u (d + 1)) + u ^ 2 = 0 := by
    linear_combination wscaled_quad u (d + 1) hu hd1
  have hSn : (Real.sqrt (u * d / (u + d) + zval ^ 2 / 4)) ^ 2 * (u + d)
      = u * d + zval ^ 2 / 4 * (u + d) := by
    rw [wscaled_sqrt_sq u d hu hd]
    field_simp
    ring
  have hcore := mono_down_core u d (wscaled u (d + 1))
    (Real.sqrt (u * d / (u + d) + zval ^ 2 / 4))
    hu hd (wscaled_nonneg u (d + 1) hu hd1) hxm hQnew
    (Real.sqrt_nonneg _) (wscaled_sqrt_lb u d hu hd) hSn
  conv_rhs => rw [wscaled]
  rw [le_div_iff₀ hA]
  exact hcore

/-- Closed form of the ranking value after a single upvote on a fresh
record: `calc_sort_value 1 0 = 1/(1+z²)`. -/
theorem csv_one_zero : calc_sort_value 1 0 = 1 / (1 + zval ^ 2) := by
  have hA : (0 : ℝ) < 1 + zval ^ 2 := by nlinarith [zval_pos]
  rw [calc_sort_value_eq_wscaled 1 0 one_pos le_rfl, Int.cast_one, Int.cast_zero, wscaled]
  have harg : (1 : ℝ) * 0 / (1 + 0) + zval ^ 2 / 4 = (zval / 2) ^ 2 := by ring
  rw [harg, Real.sqrt_sq (by linarith [zval_pos] : (0 : ℝ) ≤ zval / 2)]
  rw [div_eq_div_iff (by linarith : (0 : ℝ) < 1 + 0 + zval ^ 2).ne' hA.ne']
  ring

/-- The first upvote on a record with no downvotes strictly lowers the
sorting value: `calc_sort_value 1 0 < calc_sort_value 0 0`. -/
theorem csv_first_upvote_drops : calc_sort_value 1 0 < calc_sort_value 0 0 := by
  have h00 : calc_sort_value 0 0 = 0.5 := by norm_num [calc_sort_value]
  rw [csv_one_zero, h00]
  rw [div_lt_iff₀ (by nlinarith [zval_pos])]
  nlinarith [one_lt_zval_sq]

/-- Claim C3, counterexample: at fixed `downvotes = 0` the sorting value is
not non-decreasing in upvotes; it strictly drops from `0.5` at `(0,0)` to
`1/(1+z²) < 0.5` at `(1,0)`. -/
theorem ranking_mono_cex :
    ¬ calc_sort_value 0 0 ≤ calc_sort_value 1 0 :=
  not_le.mpr csv_first_upvote_drops

/-- Claim C3 (amended): for fixed downvotes the sorting value is
non-decreasing in upvotes on the Wilson branch (every step `u → u+1` with
`u ≥ 1`, and the step `0 → 1` whenever `downvotes > 0`); the single
exception is the step from `(0,0)` to `(1,0)`, where it strictly decreases
from `0.5` to `1/(1+z²)`; for fixed upvotes it is non-increasing in
downvotes without exception. -/
theorem ranking_monotonicity_amended :
    (∀ u d : ℤ, 1 ≤ u → 0 ≤ d → calc_sort_value u d ≤ calc_sort_value (u + 1) d) ∧
    (∀ d : ℤ, 0 < d → calc_sort_value 0 d ≤ calc_sort_value 1 d) ∧
    calc_sort_value 1 0 < calc_sort_value 0 0 ∧
    (∀ u d : ℤ, 0 ≤ u → 0 ≤ d → calc_sort_value u (d + 1) ≤ calc_sort_value u d) := by
  refine ⟨?_, ?_, csv_first_upvote_drops, ?_⟩
  · intro u d hu hd
    have hu0 : (0 : ℤ) < u := by omega
    have hu1 : (0 : ℤ) < u + 1 := by omega
    rw [calc_sort_value_eq_wscaled u d hu0 hd,
      calc_sort_value_eq_wscaled (u + 1) d hu1 hd,
      show (((u + 1 : ℤ)) : ℝ) = (u : ℝ) + 1 by push_cast; ring]
    exact wscaled_mono_up (u : ℝ) (d : ℝ) (by exact_mod_cast hu) (by exact_mod_cast hd)
  · intro d hd
    have h0d : calc_sort_value 0 d = ((d * -1 : ℤ) : ℝ) := by
      simp [calc_sort_value, hd.ne']
    have h1d : calc_sort_value 1 d = wscaled ((1 : ℤ) : ℝ) ((d : ℤ) : ℝ) :=
      calc_sort_value_eq_wscaled 1 d one_pos hd.le
    have hge : (0 : ℝ) ≤ wscaled ((1 : ℤ) : ℝ) ((d : ℤ) : ℝ) := by
      rw [show (((1 : ℤ)) : ℝ) = (1 : ℝ) from Int.cast_one]
      exact wscaled_nonneg 1 (d : ℝ) le_rfl (by exact_mod_cast hd.le)
    have hdr : (0 : ℝ) ≤ (d : ℝ) := by exact_mod_cast hd.le
    have hle : ((d * -1 : ℤ) : ℝ) ≤ 0 := by
      push_cast
      linarith [hdr]
    rw [h0d, h1d]
    linarith [hge, hle]
  · intro u d hu hd
    rcases lt_or_eq_of_le hu with hu0 | hu0
    · rw [calc_sort_value_eq_wscaled u (d + 1) hu0 (by omega),
        calc_sort_value_eq_wscaled u d hu0 hd,
        show (((d + 1 : ℤ)) : ℝ) = (d : ℝ) + 1 by push_cast; ring]
      exact wscaled_mono_down (u : ℝ) (d : ℝ) (by exact_mod_cast hu0) (by exact_mod_cast hd)
    · subst hu0
      rcases lt_or_eq_of_le hd with hd0 | hd0
      · have h1 : calc_sort_value 0 (d + 1) = (((d + 1) * -1 : ℤ) : ℝ) := by
          simp [calc_sort_value, show d + 1 ≠ 0 by omega]
        have h2 : calc_sort_value 0 d = ((d * -1 : ℤ) : ℝ) := by
          simp [calc_sort_value, hd0.ne']
        rw [h1, h2]
        push_cast
        linarith
      · subst hd0
        have h1 : calc_sort_value 0 (0 + 1) = (((0 + 1) * -1 : ℤ) : ℝ) := by
          norm_num [calc_sort_value]
        have h2 : calc_sort_value 0 0 = 0.5 := by norm_num [calc_sort_value]
        rw [h1, h2]
        norm_num

/-- Witness for the amended Claim C3 theorem at concrete counts. -/
theorem ranking_monotonicity_amended_witness :
    ((1 : ℤ) ≤ 1 ∧ (0 : ℤ) ≤ 0 ∧ calc_sort_value 1 0 ≤ calc_sort_value (1 + 1) 0) ∧
    ((0 : ℤ) < 1 ∧ calc_sort_value 0 1 ≤ calc_sort_value 1 1) ∧
    ((0 : ℤ) ≤ 1 ∧ (0 : ℤ) ≤ 0 ∧ calc_sort_value 1 (0 + 1) ≤ calc_sort_value 1 0) := by
  refine ⟨⟨le_refl 1, le_refl 0, ?_⟩, ⟨by norm_num, ?_⟩, ⟨by norm_num, le_refl 0, ?_⟩⟩
  · exact ranking_monotonicity_amended.1 1 0 (le_refl 1) (le_refl 0)
  · exact ranking_monotonicity_amended.2.1 1 (by norm_num)
  · exact ranking_monotonicity_amended.2.2.2 1 0 (by norm_num) (le_refl 0)

/-! ## Vote handler (src/main.rs `vote`, lines 116-177) -/

/-- A full row of the `images` table. -/
structure ImageRecord where
  id : String
  filename : String
  hash : String
  upvotes : ℤ
  downvotes : ℤ
  sorting : ℝ
  confidence : ℝ

/-- Outcome of the vote handler: HTTP 200 with success, 404 not found, or
400 bad request for an invalid vote value. -/
inductive VoteOutcome where
  | ok
  | notFound
  | invalidValue

/-- The `UPDATE images SET upvotes, downvotes, sorting, confidence WHERE id`
assignment applied to one row: the four voting columns are replaced, all
other columns kept. -/
noncomputable def updateFields (r : ImageRecord) (u d : ℤ) : ImageRecord :=
  { r with
    upvotes := u
    downvotes := d
    sorting := calc_sort_value u d
    confidence := voteConfidence u d }

/-- Embedding of the `vote` handler (src/main.rs lines 116-177): fetch the
record by id (`NotFound` if absent), require the value to be `1` or `-1`
(`BadRequest` otherwise, before any write), increment the matching counter,
recompute sorting and confidence, and issue the single `UPDATE` of all four
columns. -/
noncomputable def applyVote (st : List ImageRecord) (rid : String) (v : ℤ) :
    List ImageRecord × VoteOutcome :=
  match st.find? (fun r => decide (r.id = rid)) with
  | none => (st, .notFound)
  | some r =>
    if v = 1 then
      (st.map fun q => if q.id = rid then updateFields q (r.upvotes + 1) r.downvotes else q,
        .ok)
    else if v = -1 then
      (st.map fun q => if q.id = rid then updateFields q r.upvotes (r.downvotes + 1) else q,
        .ok)
    else (st, .invalidValue)

/-- Claim C5: a `+1` vote on the record `(u, d)` produces `(u+1, d)`, a `-1`
vote produces `(u, d+1)`, and in both cases the stored sorting and
confidence are the components of `rank` at the new counts, written in the
same single update as the counts. -/
theorem vote_increments (st : List ImageRecord) (rid : String) (r : ImageRecord)
    (hfind : st.find? (fun q => decide (q.id = rid)) = some r) :
    applyVote st rid 1
      = (st.map fun q => if q.id = rid then
          { q with
            upvotes := r.upvotes + 1
            downvotes := r.downvotes
            sorting := (rank (r.upvotes + 1) r.downvotes).1
            confidence := (rank (r.upvotes + 1) r.downvotes).2 } else q, .ok) ∧
    applyVote st rid (-1)
      = (st.map fun q => if q.id = rid then
          { q with
            upvotes := r.upvotes
            downvotes := r.downvotes + 1
            sorting := (rank r.upvotes (r.downvotes + 1)).1
            confidence := (rank r.upvotes (r.downvotes + 1)).2 } else q, .ok) := by
  constructor
  · simp [applyVote, hfind, updateFields, rank]
  · simp [applyVote, hfind, updateFields, rank]

/-- A sample record for the concrete witnesses. -/
noncomputable def demoRec : ImageRecord :=
  { id := "a"
    filename := "cat.jpg"
    hash := "42"
    upvotes := 0
    downvotes := 0
    sorting := 0.5
    confidence := 0 }

/-- A one-record sample store. -/
noncomputable def demoStore : List ImageRecord := [demoRec]

/-- Witness for the Claim C5 theorem: a `+1` vote on a fresh `(0,0)` record
yields counts `(1,0)` with sorting and confidence `rank (0+1) 0`. -/
theorem vote_increments_witness :
    demoStore.find? (fun q => decide (q.id = "a")) = some demoRec ∧
    applyVote demoStore "a" 1
      = ([{ demoRec with
            upvotes := 0 + 1
            downvotes := 0
            sorting := (rank (0 + 1) 0).1
            confidence := (rank (0 + 1) 0).2 }], .ok) := by
  have h : demoStore.find? (fun q => decide (q.id = "a")) = some demoRec := rfl
  refine ⟨h, ?_⟩
  rw [(vote_increments demoStore "a" demoRec h).1]
  rfl

/-- Claim C6: a vote value other than `1` and `-1` never mutates the store,
and when the targeted record exists the outcome is `invalidValue`. -/
theorem vote_invalid_value (st : List ImageRecord) (rid : String) (v : ℤ)
    (h1 : v ≠ 1) (h2 : v ≠ -1) :
    (applyVote st rid v).1 = st ∧
    (∀ r, st.find? (fun q => decide (q.id = rid)) = some r →
      (applyVote st rid v).2 = .invalidValue) := by
  cases hfind : st.find? (fun q => decide (q.id = rid)) with
  | none =>
    constructor
    · simp [applyVote, hfind]
    · intro r hr
      exact absurd hr (by simp)
  | some r =>
    constructor
    · simp [applyVote, hfind, h1, h2]
    · intro r2 hr2
      simp [applyVote, hfind, h1, h2]

/-- Witness for the Claim C6 theorem: `applyVote(id, 2)` on the sample
store returns `invalidValue` and leaves the store exactly as it was. -/
theorem vote_invalid_value_witness :
    ((2 : ℤ) ≠ 1 ∧ (2 : ℤ) ≠ -1 ∧
      demoStore.find? (fun q => decide (q.id = "a")) = some demoRec) ∧
    (applyVote demoStore "a" 2).1 = demoStore ∧
    (applyVote demoStore "a" 2).2 = VoteOutcome.invalidValue := by
  refine ⟨⟨by decide, by decide, rfl⟩, ?_, ?_⟩
  · exact (vote_invalid_value demoStore "a" 2 (by decide) (by decide)).1
  · exact (vote_invalid_value demoStore "a" 2 (by decide) (by decide)).2 demoRec rfl

/-- Frame effect of the per-row update map used by `applyVote`: every row
keeps its position, its `id`, `filename` and `hash`, and rows whose id
differs from the target are untouched. -/
theorem vote_map_frame (st : List ImageRecord) (rid : String) (U D : ℤ)
    (i : ℕ) (hi : i < st.length) :
    ∃ r r', st[i]? = some r ∧
      (st.map fun q => if q.id = rid then updateFields q U D else q)[i]? = some r' ∧
      r'.id = r.id ∧ r'.filename = r.filename ∧ r'.hash = r.hash ∧
      (r.id ≠ rid → r' = r) := by
  refine ⟨st[i], if st[i].id = rid then updateFields st[i] U D else st[i],
    List.getElem?_eq_getElem hi, ?_, ?_, ?_, ?_, ?_⟩
  · rw [List.getElem?_map, List.getElem?_eq_getElem hi]
    rfl
  · by_cases hq : st[i].id = rid <;> simp [hq, updateFields]
  · by_cases hq : st[i].id = rid <;> simp [hq, updateFields]
  · by_cases hq : st[i].id = rid <;> simp [hq, updateFields]
  · intro hq
    simp [hq]

/-- Claim C9: a successful vote keeps the store length, keeps every row in
place with its `id`, `filename` and `hash` unchanged, and leaves every row
whose id differs from the request id completely unchanged. -/
theorem vote_frame (st st' : List ImageRecord) (rid : String) (v : ℤ)
    (h : applyVote st rid v = (st', .ok)) :
    st'.length = st.length ∧
    ∀ i, i < st.length →
      ∃ r r', st[i]? = some r ∧ st'[i]? = some r' ∧
        r'.id = r.id ∧ r'.filename = r.filename ∧ r'.hash = r.hash ∧
        (r.id ≠ rid → r' = r) := by
  cases hfind : st.find? (fun q => decide (q.id = rid)) with
  | none =>
    have happ : applyVote st rid v = (st, .notFound) := by
      rw [applyVote, hfind]
    rw [happ] at h
    exact absurd (congrArg Prod.snd h) (by simp)
  | some r =>
    have happ : applyVote st rid v
        = if v = 1 then
            (st.map fun q => if q.id = rid then updateFields q (r.upvotes + 1) r.downvotes else q,
              VoteOutcome.ok)
          else if v = -1 then
            (st.map fun q => if q.id = rid then updateFields q r.upvotes (r.downvotes + 1) else q,
              VoteOutcome.ok)
          else (st, .invalidValue) := by
      rw [applyVote, hfind]
    rw [happ] at h
    by_cases hv1 : v = 1
    · rw [if_pos hv1] at h
      have hst : st' = st.map fun q =>
          if q.id = rid then updateFields q (r.upvotes + 1) r.downvotes else q :=
        (congrArg Prod.fst h).symm
      subst hst
      exact ⟨by simp, fun i hi => vote_map_frame st rid (r.upvotes + 1) r.downvotes i hi⟩
    · rw [if_neg hv1] at h
      by_cases hv2 : v = -1
      · rw [if_pos hv2] at h
        have hst : st' = st.map fun q =>
            if q.id = rid then updateFields q r.upvotes (r.downvotes + 1) else q :=
          (congrArg Prod.fst h).symm
        subst hst
        exact ⟨by simp, fun i hi => vote_map_frame st rid r.upvotes (r.downvotes + 1) i hi⟩
      · rw [if_neg hv2] at h
        exact absurd (congrArg Prod.snd h) (by simp)

/-- A second sample record, target of no vote, for the frame witness. -/
noncomputable def demoRec2 : ImageRecord :=
  { id := "b"
    filename := "dog.jpg"
    hash := "43"
    upvotes := 3
    downvotes := 1
    sorting := 0.2
    confidence := 0.1 }

/-- Witness for the Claim C9 theorem: voting on record `a` of a two-record
store leaves record `b` (position 1) untouched and keeps the metadata of
record `a` (position 0). -/
theorem vote_frame_witness :
    applyVote [demoRec, demoRec2] "a" 1
      = ([{ demoRec with
            upvotes := demoRec.upvotes + 1
            downvotes := demoRec.downvotes
            sorting := calc_sort_value (demoRec.upvotes + 1) demoRec.downvotes
            confidence := voteConfidence (demoRec.upvotes + 1) demoRec.downvotes },
          demoRec2], .ok) ∧
    ([{ demoRec with
        upvotes := demoRec.upvotes + 1
        downvotes := demoRec.downvotes
        sorting := calc_sort_value (demoRec.upvotes + 1) demoRec.downvotes
        confidence := voteConfidence (demoRec.upvotes + 1) demoRec.downvotes },
      demoRec2] : List ImageRecord).length = ([demoRec, demoRec2] : List ImageRecord).length ∧
    (∃ r r', ([demoRec, demoRec2] : List ImageRecord)[1]? = some r ∧
      ([{ demoRec with
          upvotes := demoRec.upvotes + 1
          downvotes := demoRec.downvotes
          sorting := calc_sort_value (demoRec.upvotes + 1) demoRec.downvotes
          confidence := voteConfidence (demoRec.upvotes + 1) demoRec.downvotes },
        demoRec2] : List ImageRecord)[1]? = some r' ∧
      r'.id = r.id ∧ r'.filename = r.filename ∧ r'.hash = r.hash ∧
      (r.id ≠ "a" → r' = r)) := by
  have h : applyVote [demoRec, demoRec2] "a" 1
      = ([{ demoRec with
            upvotes := demoRec.upvotes + 1
            downvotes := demoRec.downvotes
            sorting := calc_sort_value (demoRec.upvotes + 1) demoRec.downvotes
            confidence := voteConfidence (demoRec.upvotes + 1) demoRec.downvotes },
          demoRec2], .ok) := by
    rw [applyVote]
    rfl
  have hframe := vote_frame [demoRec, demoRec2] _ "a" 1 h
  exact ⟨h, hframe.1, hframe.2 1 (by norm_num)⟩

/-! ## Ingestion loop (src/main.rs `check_imports`, `save_image`) -/

/-- An inbound file as the ingestion loop sees it: its basename, extension
(absent when the path has none), the result of `fs::read` (`none` models a
read error), the outcomes of the fallible external operations performed on
it (`fs::copy`, image decode and rendition, metadata insert), and the ulid
generated for it on insertion. -/
structure InFile where
  base : String
  ext : Option String
  bytes : Option (List Nat)
  copyOk : Bool
  decodeOk : Bool
  insertOk : Bool
  rid : String

/-- A metadata row as written by ingestion (`INSERT INTO images (id,
filename, hash)`). -/
structure MetaRecord where
  id : String
  filename : String
  hash : String
deriving DecidableEq

/-- The storage state seen by the ingestion loop: raw filenames, rendition
filenames, metadata rows, and the contents of the inbound directory. -/
structure IngestStore where
  raws : List String
  resized : List String
  images : List MetaRecord
  imports : List InFile

/-- Error class of a failed per-file step, following the taxonomy of the
spec: read and copy failures are IO errors, an unreadable image is a decode
error, a failed insert is a store error. -/
inductive IngestErr where
  | ioError
  | decodeError
  | storeError
deriving DecidableEq

/-- What the loop body did with one inbound file. -/
inductive FileOutcome where
  | noExt
  | skippedExt
  | duplicate
  | inserted
  | failed (e : IngestErr)

/-- Embedding of `save_image` (src/main.rs lines 314-344): copy the inbound
file to the raw path, produce the rendition, generate an id and insert the
metadata row. Each failing step aborts with its error, keeping the writes
already performed. -/
def save_image (st : IngestStore) (f : InFile) (nm : String) (hashStr : String) :
    IngestStore × FileOutcome :=
  if f.copyOk then
    let st1 := { st with raws := st.raws ++ [nm] }
    if f.decodeOk then
      let st2 := { st1 with resized := st1.resized ++ [hashStr ++ ".jpg"] }
      if f.insertOk then
        ({ st2 with images := st2.images ++ [⟨f.rid, f.base, hashStr⟩] }, .inserted)
      else (st2, .failed .storeError)
    else (st1, .failed .decodeError)
  else (st, .failed .ioError)

/-- ASCII lowercasing of a string, the embedding of the
`to_lowercase()` call applied to file extensions (extensions of interest
are ASCII). -/
def lowerString (s : String) : String := String.mk (s.data.map Char.toLower)

/-- The body of the `check_imports` per-file loop (src/main.rs lines
363-406): skip files without an extension, skip extensions other than
`jpg`/`jpeg` (after lowercasing), read the bytes (an error aborts), hash
them, skip when the canonical raw file `"{hash}.{ext}"` already exists
(duplicate), otherwise run `save_image`. The hash function is passed
explicitly. -/
def processFile (h : List Nat → Nat) (st : IngestStore) (f : InFile) :
    IngestStore × FileOutcome :=
  match f.ext with
  | none => (st, .noExt)
  | some e0 =>
    let el := lowerString e0
    if el = "jpg" ∨ el = "jpeg" then
      match f.bytes with
      | none => (st, .failed .ioError)
      | some data =>
        let nm := toString (h data) ++ "." ++ el
        if nm ∈ st.raws then (st, .duplicate)
        else save_image st f nm (toString (h data))
    else (st, .skippedExt)

/-- The `while let Some(file) = ...` loop of `check_imports`: process the
inbound files in order; the `?` operator propagates the first per-file
error, abandoning the remaining files of the cycle. -/
def runFiles (h : List Nat → Nat) (st : IngestStore) :
    List InFile → IngestStore × Option IngestErr
  | [] => (st, none)
  | f :: rest =>
    match processFile h st f with
    | (st1, .failed e) => (st1, some e)
    | (st1, _) => runFiles h st1 rest

/-- Embedding of one `check_imports` cycle (src/main.rs lines 357-409) over
the current contents of the inbound directory. -/
def check_imports (h : List Nat → Nat) (st : IngestStore) :
    IngestStore × Option IngestErr :=
  runFiles h st st.imports

theorem processFile_noExt (h : List Nat → Nat) (st : IngestStore) (f : InFile)
    (hext : f.ext = none) : processFile h st f = (st, .noExt) := by
  simp [processFile, hext]

theorem processFile_skipExt (h : List Nat → Nat) (st : IngestStore) (f : InFile)
    (e : String) (hext : f.ext = some e)
    (hsupp : ¬ (lowerString e = "jpg" ∨ lowerString e = "jpeg")) :
    processFile h st f = (st, .skippedExt) := by
  simp [processFile, hext, hsupp]

theorem processFile_read_fail (h : List Nat → Nat) (st : IngestStore) (f : InFile)
    (e : String) (hext : f.ext = some e)
    (hsupp : lowerString e = "jpg" ∨ lowerString e = "jpeg") (hbytes : f.bytes = none) :
    processFile h st f = (st, .failed .ioError) := by
  simp [processFile, hext, hsupp, hbytes]

theorem processFile_duplicate (h : List Nat → Nat) (st : IngestStore) (f : InFile)
    (e : String) (data : List Nat) (hext : f.ext = some e)
    (hsupp : lowerString e = "jpg" ∨ lowerString e = "jpeg") (hbytes : f.bytes = some data)
    (hmem : (toString (h data) ++ "." ++ lowerString e) ∈ st.raws) :
    processFile h st f = (st, .duplicate) := by
  simp [processFile, hext, hsupp, hbytes, hmem]

theorem processFile_copy_fail (h : List Nat → Nat) (st : IngestStore) (f : InFile)
    (e : String) (data : List Nat) (hext : f.ext = some e)
    (hsupp : lowerString e = "jpg" ∨ lowerString e = "jpeg") (hbytes : f.bytes = some data)
    (hmem : (toString (h data) ++ "." ++ lowerString e) ∉ st.raws)
    (hcopy : f.copyOk = false) :
    processFile h st f = (st, .failed .ioError) := by
  simp [processFile, save_image, hext, hsupp, hbytes, hmem, hcopy]

theorem processFile_decode_fail (h : List Nat → Nat) (st : IngestStore) (f : InFile)
    (e : String) (data : List Nat) (hext : f.ext = some e)
    (hsupp : lowerString e = "jpg" ∨ lowerString e = "jpeg") (hbytes : f.bytes = some data)
    (hmem : (toString (h data) ++ "." ++ lowerString e) ∉ st.raws)
    (hcopy : f.copyOk = true) (hdec : f.decodeOk = false) :
    processFile h st f
      = ({ st with raws := st.raws ++ [toString (h data) ++ "." ++ lowerString e] },
          .failed .decodeError) := by
  simp [processFile, save_image, hext, hsupp, hbytes, hmem, hcopy, hdec]

theorem processFile_insert_fail (h : List Nat → Nat) (st : IngestStore) (f : InFile)
    (e : String) (data : List Nat) (hext : f.ext = some e)
    (hsupp : lowerString e = "jpg" ∨ lowerString e = "jpeg") (hbytes : f.bytes = some data)
    (hmem : (toString (h data) ++ "." ++ lowerString e) ∉ st.raws)
    (hcopy : f.copyOk = true) (hdec : f.decodeOk = true) (hins : f.insertOk = false) :
    processFile h st f
      = ({ st with
            raws := st.raws ++ [toString (h data) ++ "." ++ lowerString e]
            resized := st.resized ++ [toString (h data) ++ ".jpg"] },
          .failed .storeError) := by
  simp [processFile, save_image, hext, hsupp, hbytes, hmem, hcopy, hdec, hins]

theorem processFile_insert_ok (h : List Nat → Nat) (st : IngestStore) (f : InFile)
    (e : String) (data : List Nat) (hext : f.ext = some e)
    (hsupp : lowerString e = "jpg" ∨ lowerString e = "jpeg") (hbytes : f.bytes = some data)
    (hmem : (toString (h data) ++ "." ++ lowerString e) ∉ st.raws)
    (hcopy : f.copyOk = true) (hdec : f.decodeOk = true) (hins : f.insertOk = true) :
    processFile h st f
      = ({ st with
            raws := st.raws ++ [toString (h data) ++ "." ++ lowerString e]
            resized := st.resized ++ [toString (h data) ++ ".jpg"]
            images := st.images ++ [⟨f.rid, f.base, toString (h data)⟩] },
          .inserted) := by
  simp [processFile, save_image, hext, hsupp, hbytes, hmem, hcopy, hdec, hins]

theorem runFiles_cons_fail (h : List Nat → Nat) (st st1 : IngestStore)
    (f : InFile) (rest : List InFile) (e : IngestErr)
    (hp : processFile h st f = (st1, .failed e)) :
    runFiles h st (f :: rest) = (st1, some e) := by
  rw [runFiles, hp]

theorem runFiles_cons_skip (h : List Nat → Nat) (st st1 : IngestStore)
    (f : InFile) (rest : List InFile) (o : FileOutcome)
    (hp : processFile h st f = (st1, o)) (ho : ∀ e, o ≠ .failed e) :
    runFiles h st (f :: rest) = runFiles h st1 rest := by
  rw [runFiles, hp]
  cases o with
  | noExt => rfl
  | skippedExt => rfl
  | duplicate => rfl
  | inserted => rfl
  | failed e => exact absurd rfl (ho e)

/-- First inbound file of the abort counterexample: a supported `jpg` file
whose bytes cannot be read. -/
def cexFile1 : InFile :=
  { base := "a.jpg", ext := some "jpg", bytes := none
    copyOk := true, decodeOk := true, insertOk := true, rid := "i1" }

/-- Second inbound file of the abort counterexample: a perfectly healthy
fresh `jpg` file. -/
def cexFile2 : InFile :=
  { base := "b.jpg", ext := some "jpg", bytes := some [1]
    copyOk := true, decodeOk := true, insertOk := true, rid := "i2" }

/-- Empty storage whose inbound directory holds the unreadable file
followed by the healthy file. -/
def cexStore : IngestStore :=
  { raws := [], resized := [], images := [], imports := [cexFile1, cexFile2] }

/-- Empty storage whose inbound directory holds only the healthy file. -/
def cexStore2 : IngestStore :=
  { raws := [], resized := [], images := [], imports := [cexFile2] }

/-- The constant hash function used by the concrete ingestion examples. -/
def hzero : List Nat → Nat := fun _ => 0

/-- Claim C1, counterexample: a read failure on the first inbound file
aborts the whole cycle with an error and the healthy second file is not
processed (storage still empty), although the same cycle run on the second
file alone ingests it. The per-file failure is thus not merely skipped: the
cycle does not continue. -/
theorem ingest_abort_cex :
    check_imports hzero cexStore = (cexStore, some IngestErr.ioError) ∧
    check_imports hzero cexStore2
      = ({ raws := ["0.jpg"], resized := ["0.jpg"]
           images := [{ id := "i2", filename := "b.jpg", hash := "0" }]
           imports := [cexFile2] }, none) := by
  constructor
  · rfl
  · rfl

/-- Claim C1 (amended): a per-file failure aborts the current ingestion
cycle. An unreadable file, a failed copy, an image decode failure or a
failed metadata insert each propagate as the error of `check_imports`,
leaving the remaining inbound files of that cycle unprocessed (writes
already performed for the failing file persist); only files without an
extension, files with an unsupported extension, and duplicates are skipped
with the cycle continuing over the remaining files. -/
theorem ingest_perfile_amended :
    (∀ (h : List Nat → Nat) (st : IngestStore) (f : InFile) (rest : List InFile)
      (e : String), st.imports = f :: rest → f.ext = some e →
      (lowerString e = "jpg" ∨ lowerString e = "jpeg") → f.bytes = none →
      check_imports h st = (st, some IngestErr.ioError)) ∧
    (∀ (h : List Nat → Nat) (st : IngestStore) (f : InFile) (rest : List InFile)
      (e : String) (data : List Nat), st.imports = f :: rest → f.ext = some e →
      (lowerString e = "jpg" ∨ lowerString e = "jpeg") → f.bytes = some data →
      (toString (h data) ++ "." ++ lowerString e) ∉ st.raws → f.copyOk = false →
      check_imports h st = (st, some IngestErr.ioError)) ∧
    (∀ (h : List Nat → Nat) (st : IngestStore) (f : InFile) (rest : List InFile)
      (e : String) (data : List Nat), st.imports = f :: rest → f.ext = some e →
      (lowerString e = "jpg" ∨ lowerString e = "jpeg") → f.bytes = some data →
      (toString (h data) ++ "." ++ lowerString e) ∉ st.raws →
      f.copyOk = true → f.decodeOk = false →
      check_imports h st
        = ({ st with raws := st.raws ++ [toString (h data) ++ "." ++ lowerString e] },
            some IngestErr.decodeError)) ∧
    (∀ (h : List Nat → Nat) (st : IngestStore) (f : InFile) (rest : List InFile)
      (e : String) (data : List Nat), st.imports = f :: rest → f.ext = some e →
      (lowerString e = "jpg" ∨ lowerString e = "jpeg") → f.bytes = some data →
      (toString (h data) ++ "." ++ lowerString e) ∉ st.raws →
      f.copyOk = true → f.decodeOk = true → f.insertOk = false →
      check_imports h st
        = ({ st with
              raws := st.raws ++ [toString (h data) ++ "." ++ lowerString e]
              resized := st.resized ++ [toString (h data) ++ ".jpg"] },
            some IngestErr.storeError)) ∧
    (∀ (h : List Nat → Nat) (st : IngestStore) (f : InFile) (rest : List InFile),
      st.imports = f :: rest →
      (f.ext = none ∨
        (∃ e, f.ext = some e ∧ ¬ (lowerString e = "jpg" ∨ lowerString e = "jpeg")) ∨
        (∃ e data, f.ext = some e ∧ (lowerString e = "jpg" ∨ lowerString e = "jpeg") ∧
          f.bytes = some data ∧ (toString (h data) ++ "." ++ lowerString e) ∈ st.raws)) →
      check_imports h st = runFiles h st rest) := by
  refine ⟨?_, ?_, ?_, ?_, ?_⟩
  · intro h st f rest e himp hext hsupp hbytes
    rw [check_imports, himp]
    exact runFiles_cons_fail h st st f rest _ (processFile_read_fail h st f e hext hsupp hbytes)
  · intro h st f rest e data himp hext hsupp hbytes hmem hcopy
    rw [check_imports, himp]
    exact runFiles_cons_fail h st st f rest _
      (processFile_copy_fail h st f e data hext hsupp hbytes hmem hcopy)
  · intro h st f rest e data himp hext hsupp hbytes hmem hcopy hdec
    rw [check_imports]
    conv_lhs => rw [himp]
    exact runFiles_cons_fail h st _ f rest _
      (processFile_decode_fail h st f e data hext hsupp hbytes hmem hcopy hdec)
  · intro h st f rest e data himp hext hsupp hbytes hmem hcopy hdec hins
    rw [check_imports]
    conv_lhs => rw [himp]
    exact runFiles_cons_fail h st _ f rest _
      (processFile_insert_fail h st f e data hext hsupp hbytes hmem hcopy hdec hins)
  · intro h st f rest himp hskip
    rw [check_imports, himp]
    rcases hskip with hext | ⟨e, hext, hsupp⟩ | ⟨e, data, hext, hsupp, hbytes, hmem⟩
    · exact runFiles_cons_skip h st st f rest _ (processFile_noExt h st f hext)
        (fun e => by simp)
    · exact runFiles_cons_skip h st st f rest _ (processFile_skipExt h st f e hext hsupp)
        (fun e2 => by simp)
    · exact runFiles_cons_skip h st st f rest _
        (processFile_duplicate h st f e data hext hsupp hbytes hmem) (fun e2 => by simp)

/-- An inbound file without an extension, for the skip witness. -/
def cexFile3 : InFile :=
  { base := "README", ext := none, bytes := some [2]
    copyOk := true, decodeOk := true, insertOk := true, rid := "i3" }

/-- Storage whose inbound directory holds a file without extension followed
by the healthy file. -/
def cexStore3 : IngestStore :=
  { raws := [], resized := [], images := [], imports := [cexFile3, cexFile2] }

/-- Witness for the amended Claim C1 theorem: the read-failure case at the
concrete counterexample store, and the skip-and-continue case for a file
without an extension. -/
theorem ingest_perfile_amended_witness :
    (cexStore.imports = cexFile1 :: [cexFile2] ∧ cexFile1.ext = some "jpg" ∧
      (lowerString "jpg" = "jpg" ∨ lowerString "jpg" = "jpeg") ∧ cexFile1.bytes = none ∧
      check_imports hzero cexStore = (cexStore, some IngestErr.ioError)) ∧
    (cexStore3.imports = cexFile3 :: [cexFile2] ∧ cexFile3.ext = none ∧
      check_imports hzero cexStore3 = runFiles hzero cexStore3 [cexFile2]) := by
  refine ⟨⟨rfl, rfl, Or.inl rfl, rfl, ?_⟩, ⟨rfl, rfl, ?_⟩⟩
  · exact ingest_perfile_amended.1 hzero cexStore cexFile1 [cexFile2] "jpg"
      rfl rfl (Or.inl rfl) rfl
  · exact ingest_perfile_amended.2.2.2.2 hzero cexStore3 cexFile3 [cexFile2]
      rfl (Or.inl rfl)

/-- Claim C7: ingestion is idempotent under the content hash. If the
canonical raw file `"{hash}.{ext}"` already exists the item is reported a
duplicate and the storage is left exactly unchanged; after a successful
fresh ingestion, re-ingesting a file with identical bytes (and an extension
with the same lowercase form) is reported a duplicate and changes nothing,
and the first ingestion added exactly one raw file with the canonical name
and exactly one metadata row with that hash. -/
theorem ingest_idempotent :
    (∀ (h : List Nat → Nat) (st : IngestStore) (f : InFile) (e : String) (data : List Nat),
      f.ext = some e → (lowerString e = "jpg" ∨ lowerString e = "jpeg") →
      f.bytes = some data → (toString (h data) ++ "." ++ lowerString e) ∈ st.raws →
      processFile h st f = (st, FileOutcome.duplicate)) ∧
    (∀ (h : List Nat → Nat) (st : IngestStore) (f f2 : InFile) (e e2 : String)
      (data : List Nat),
      f.ext = some e → (lowerString e = "jpg" ∨ lowerString e = "jpeg") →
      f.bytes = some data → (toString (h data) ++ "." ++ lowerString e) ∉ st.raws →
      f.copyOk = true → f.decodeOk = true → f.insertOk = true →
      f2.ext = some e2 → lowerString e2 = lowerString e → f2.bytes = some data →
      processFile h st f
        = ({ st with
              raws := st.raws ++ [toString (h data) ++ "." ++ lowerString e]
              resized := st.resized ++ [toString (h data) ++ ".jpg"]
              images := st.images ++ [⟨f.rid, f.base, toString (h data)⟩] },
            FileOutcome.inserted) ∧
      processFile h (processFile h st f).1 f2 = ((processFile h st f).1, FileOutcome.duplicate) ∧
      (processFile h st f).1.raws.count (toString (h data) ++ "." ++ lowerString e)
        = st.raws.count (toString (h data) ++ "." ++ lowerString e) + 1 ∧
      (processFile h st f).1.images.countP (fun r => r.hash == toString (h data))
        = st.images.countP (fun r => r.hash == toString (h data)) + 1) := by
  constructor
  · intro h st f e data hext hsupp hbytes hmem
    exact processFile_duplicate h st f e data hext hsupp hbytes hmem
  · intro h st f f2 e e2 data hext hsupp hbytes hmem hcopy hdec hins hext2 he2 hbytes2
    have hins1 := processFile_insert_ok h st f e data hext hsupp hbytes hmem hcopy hdec hins
    have hsupp2 : lowerString e2 = "jpg" ∨ lowerString e2 = "jpeg" := by
      rw [he2]; exact hsupp
    refine ⟨hins1, ?_, ?_, ?_⟩
    · rw [hins1]
      apply processFile_duplicate h _ f2 e2 data hext2 hsupp2 hbytes2
      rw [he2]
      simp
    · rw [hins1]
      simp [List.count_append]
    · rw [hins1]
      simp [List.countP_append]

/-- A fresh healthy inbound file for the idempotence witness. -/
def idemFile : InFile :=
  { base := "c.jpg", ext := some "jpg", bytes := some [3, 4]
    copyOk := true, decodeOk := true, insertOk := true, rid := "i4" }

/-- A second inbound file with the same bytes and extension but a
different name, for the idempotence witness. -/
def idemFile2 : InFile :=
  { base := "copy-of-c.jpg", ext := some "jpg", bytes := some [3, 4]
    copyOk := true, decodeOk := true, insertOk := true, rid := "i5" }

/-- An empty storage state for the idempotence witness. -/
def idemStore : IngestStore :=
  { raws := [], resized := [], images := [], imports := [] }

/-- Witness for the Claim C7 theorem: ingesting a fresh file into empty
storage and then re-ingesting identical bytes reports a duplicate, leaves
the state of the first ingestion unchanged, and yields exactly one raw file
and one metadata row. -/
theorem ingest_idempotent_witness :
    (idemFile.ext = some "jpg" ∧
      (lowerString "jpg" = "jpg" ∨ lowerString "jpg" = "jpeg") ∧
      idemFile.bytes = some [3, 4] ∧
      (toString (hzero [3, 4]) ++ "." ++ lowerString "jpg") ∉ idemStore.raws) ∧
    processFile hzero (processFile hzero idemStore idemFile).1 idemFile2
      = ((processFile hzero idemStore idemFile).1, FileOutcome.duplicate) ∧
    (processFile hzero idemStore idemFile).1.raws.count
        (toString (hzero [3, 4]) ++ "." ++ lowerString "jpg")
      = idemStore.raws.count (toString (hzero [3, 4]) ++ "." ++ lowerString "jpg") + 1 ∧
    (processFile hzero idemStore idemFile).1.images.countP
        (fun r => r.hash == toString (hzero [3, 4]))
      = idemStore.images.countP (fun r => r.hash == toString (hzero [3, 4])) + 1 := by
  have hmain := ingest_idempotent.2 hzero idemStore idemFile idemFile2 "jpg" "jpg" [3, 4]
    rfl (Or.inl rfl) rfl (by decide) rfl rfl rfl rfl rfl rfl
  exact ⟨⟨rfl, Or.inl rfl, rfl, by decide⟩, hmain.2.1, hmain.2.2.1, hmain.2.2.2⟩

theorem save_image_imports (st : IngestStore) (f : InFile) (nm hs : String) :
    (save_image st f nm hs).1.imports = st.imports := by
  cases hc : f.copyOk <;> cases hd : f.decodeOk <;> cases hi : f.insertOk <;>
    simp [save_image, hc, hd, hi]

theorem save_image_raws (st : IngestStore) (f : InFile) (nm hs : String) :
    ∃ a, (save_image st f nm hs).1.raws = st.raws ++ a := by
  cases hc : f.copyOk
  · exact ⟨[], by simp [save_image, hc]⟩
  · cases hd : f.decodeOk
    · exact ⟨[nm], by simp [save_image, hc, hd]⟩
    · cases hi : f.insertOk
      · exact ⟨[nm], by simp [save_image, hc, hd, hi]⟩
      · exact ⟨[nm], by simp [save_image, hc, hd, hi]⟩

theorem processFile_imports (h : List Nat → Nat) (st : IngestStore) (f : InFile) :
    (processFile h st f).1.imports = st.imports := by
  cases hext : f.ext with
  | none => simp [processFile, hext]
  | some e =>
    by_cases hsupp : lowerString e = "jpg" ∨ lowerString e = "jpeg"
    · cases hbytes : f.bytes with
      | none => simp [processFile, hext, hsupp, hbytes]
      | some data =>
        by_cases hmem : (toString (h data) ++ "." ++ lowerString e) ∈ st.raws
        · simp [processFile, hext, hsupp, hbytes, hmem]
        · simp [processFile, hext, hsupp, hbytes, hmem, save_image_imports]
    · simp [processFile, hext, hsupp]

theorem processFile_raws (h : List Nat → Nat) (st : IngestStore) (f : InFile) :
    ∃ a, (processFile h st f).1.raws = st.raws ++ a := by
  cases hext : f.ext with
  | none => exact ⟨[], by simp [processFile, hext]⟩
  | some e =>
    by_cases hsupp : lowerString e = "jpg" ∨ lowerString e = "jpeg"
    · cases hbytes : f.bytes with
      | none => exact ⟨[], by simp [processFile, hext, hsupp, hbytes]⟩
      | some data =>
        by_cases hmem : (toString (h data) ++ "." ++ lowerString e) ∈ st.raws
        · exact ⟨[], by simp [processFile, hext, hsupp, hbytes, hmem]⟩
        · obtain ⟨a, ha⟩ := save_image_raws st f
            (toString (h data) ++ "." ++ lowerString e) (toString (h data))
          refine ⟨a, ?_⟩
          rw [← ha]
          simp [processFile, hext, hsupp, hbytes, hmem]
    · exact ⟨[], by simp [processFile, hext, hsupp]⟩

theorem runFiles_imports (h : List Nat → Nat) (fs : List InFile) :
    ∀ st : IngestStore, (runFiles h st fs).1.imports = st.imports := by
  induction fs with
  | nil => intro st; rfl
  | cons f rest ih =>
    intro st
    rcases hp : processFile h st f with ⟨st1, o⟩
    have h1 : st1.imports = st.imports := by
      have h2 := processFile_imports h st f
      rw [hp] at h2
      exact h2
    cases o with
    | failed e =>
      rw [runFiles_cons_fail h st st1 f rest e hp]
      exact h1
    | noExt =>
      rw [runFiles_cons_skip h st st1 f rest _ hp (fun e => by simp), ih st1]
      exact h1
    | skippedExt =>
      rw [runFiles_cons_skip h st st1 f rest _ hp (fun e => by simp), ih st1]
      exact h1
    | duplicate =>
      rw [runFiles_cons_skip h st st1 f rest _ hp (fun e => by simp), ih st1]
      exact h1
    | inserted =>
      rw [runFiles_cons_skip h st st1 f rest _ hp (fun e => by simp), ih st1]
      exact h1

theorem runFiles_raws (h : List Nat → Nat) (fs : List InFile) :
    ∀ st : IngestStore, ∃ a, (runFiles h st fs).1.raws = st.raws ++ a := by
  induction fs with
  | nil => intro st; exact ⟨[], by simp [runFiles]⟩
  | cons f rest ih =>
    intro st
    rcases hp : processFile h st f with ⟨st1, o⟩
    have h1 : ∃ a, st1.raws = st.raws ++ a := by
      obtain ⟨a, ha⟩ := processFile_raws h st f
      rw [hp] at ha
      exact ⟨a, ha⟩
    obtain ⟨a1, ha1⟩ := h1
    cases o with
    | failed e =>
      rw [runFiles_cons_fail h st st1 f rest e hp]
      exact ⟨a1, ha1⟩
    | noExt =>
      rw [runFiles_cons_skip h st st1 f rest _ hp (fun e => by simp)]
      obtain ⟨a2, ha2⟩ := ih st1
      exact ⟨a1 ++ a2, by rw [ha2, ha1, List.append_assoc]⟩
    | skippedExt =>
      rw [runFiles_cons_skip h st st1 f rest _ hp (fun e => by simp)]
      obtain ⟨a2, ha2⟩ := ih st1
      exact ⟨a1 ++ a2, by rw [ha2, ha1, List.append_assoc]⟩
    | duplicate =>
      rw [runFiles_cons_skip h st st1 f rest _ hp (fun e => by simp)]
      obtain ⟨a2, ha2⟩ := ih st1
      exact ⟨a1 ++ a2, by rw [ha2, ha1, List.append_assoc]⟩
    | inserted =>
      rw [runFiles_cons_skip h st st1 f rest _ hp (fun e => by simp)]
      obtain ⟨a2, ha2⟩ := ih st1
      exact ⟨a1 ++ a2, by rw [ha2, ha1, List.append_assoc]⟩

/-- Claim C10: the inbound-file disposal policy is copy-and-keep. A cycle
of the ingestion loop never deletes, moves or modifies an inbound file (the
inbound directory contents are identical after the cycle, whether items
were inserted, duplicates, skipped or failed), and raw storage only ever
grows by the newly copied files. -/
theorem ingest_copy_and_keep :
    ∀ (h : List Nat → Nat) (st : IngestStore),
      (check_imports h st).1.imports = st.imports ∧
      ∃ newRaws, (check_imports h st).1.raws = st.raws ++ newRaws := by
  intro h st
  exact ⟨runFiles_imports h st.imports st, runFiles_raws h st.imports st⟩
